import Mathlib

/-!
Shallow embedding of the core of `main.py`, a TOML-to-custom-dialect
translator.  The document tree (produced by the tomlkit front end, which the
spec treats as an external collaborator) is modelled by the inductive type
`Value`: tables (section tables and inline tables are both `dict` instances
in the host program, but only `items.Table` entries count as sections at top
level, so the two are separate constructors), arrays, and the scalar kinds
boolean, integer, float and string.  Floats carry the host's decimal text
(`str(f)`); float arithmetic never occurs in the program.  `Value.other`
stands for any host object of a kind the serializer does not handle
(e.g. a date-time), carrying the text that `str()` of that object would
produce.  Python's `str.lower` is modelled on ASCII letters, which is exact
for every key the program compares against the ASCII literals "constants"
and "comments".
-/

namespace Translator

inductive Value where
  | bool (b : Bool)
  | int (n : Int)
  | float (text : String)
  | str (s : String)
  | arr (elems : List Value)
  | table (entries : List (String × Value))
  | inlineTable (entries : List (String × Value))
  | other (text : String)

/-- Errors raised by the core (`ValueError` messages in `main.py`, plus the
host `TypeError` that `in` raises on a non-container operand). -/
inductive TErr where
  | unsupportedIdentifier (k : String)
  | unsupportedType (t : String)
  | invalidConstantsValue
  | invalidConstantName (k : String)
  | duplicateConstant (k : String)
  | undefinedConstant (k : String)
  | unsupportedSectionName (k : String)
  | typeError
deriving DecidableEq

/-- First character class of the identifier regex `[_A-Za-z]`. -/
def isNameStart (c : Char) : Bool :=
  c = '_' || ('A' ≤ c && c ≤ 'Z') || ('a' ≤ c && c ≤ 'z')

/-- Continuation character class `[_a-zA-Z0-9]`. -/
def isNameChar (c : Char) : Bool :=
  isNameStart c || ('0' ≤ c && c ≤ '9')

/-- A character list that the identifier grammar accepts in full:
one `[_A-Za-z]` then zero or more `[_a-zA-Z0-9]`. -/
def identCore : List Char → Bool
  | [] => false
  | c :: cs => isNameStart c && cs.all isNameChar

/-- Modelled from the spec: "matches `^[A-Za-z_][A-Za-z0-9_]*$` ...
and nothing else" read as an exact whole-string match. -/
def specExactIdent (s : String) : Bool :=
  identCore s.data

/-- The validator `name_pattern.match(s)` of `main.py` (line 9): Python `re.match` with the
pattern `^[_A-Za-z][_a-zA-Z0-9]*$`.  In Python, `$` (without `re.MULTILINE`)
matches at the end of the string or just before one newline at the very end,
so the host regex also accepts a valid identifier followed by a single
trailing `'\n'`. -/
def name_pattern_match (s : String) : Bool :=
  identCore s.data ||
    (match s.data.getLast? with
      | some c => c = '\n' && identCore s.data.dropLast
      | none => false)

/-- Python `str.lower`, restricted to ASCII (exact for the program's
comparisons against "constants" and "comments"). -/
def pyLower (s : String) : String :=
  String.mk (s.data.map Char.toLower)

/-- Python `'\t' * d` (empty for `d = 0`; `d - 1` at `d = 0` is a negative
repeat count in Python, which also yields the empty string, matching `Nat`
subtraction). -/
def tabs : Nat → String
  | 0 => ""
  | n + 1 => "\t" ++ tabs n

/-- The greedy run of identifier-continuation characters at the head of a
character list, and the remainder (`[_a-zA-Z0-9]*` of the scanner regex). -/
def spanName : List Char → List Char × List Char
  | [] => ([], [])
  | c :: cs =>
    if isNameChar c then
      match spanName cs with
      | (a, b) => (c :: a, b)
    else ([], c :: cs)

theorem spanName_snd_length (cs : List Char) : (spanName cs).2.length ≤ cs.length := by
  induction cs with
  | nil => simp [spanName]
  | cons c cs ih =>
    simp only [spanName]
    split
    · simp only [List.length_cons]
      omega
    · simp

/-- One attempt of the scanner regex `\.\{([_A-Za-z][_a-zA-Z0-9]*)\}.` at the
head of the character list (`re.findall` in `main.py` line 106; note the
final `.` of the pattern is unescaped, so it matches any character except a
newline).  On success, returns the captured name and the characters after
the whole match. -/
def matchAt : List Char → Option (String × List Char)
  | c0 :: c1 :: c :: cs =>
    if c0 = '.' ∧ c1 = '{' ∧ isNameStart c then
      match spanName cs with
      | (tl, r1 :: r2 :: rest) =>
        if r1 = '}' ∧ ¬ r2 = '\n' then some (String.mk (c :: tl), rest) else none
      | _ => none
    else none
  | _ => none

theorem matchAt_rest_lt {l : List Char} {nm : String} {rest : List Char}
    (h : matchAt l = some (nm, rest)) : rest.length < l.length := by
  unfold matchAt at h
  split at h
  · rename_i c0 c1 c cs
    split at h
    · split at h
      · rename_i tl r1 r2 rest2 heq
        split at h
        · have hlen := spanName_snd_length cs
          rw [heq] at hlen
          simp only [Option.some.injEq, Prod.mk.injEq] at h
          rw [← h.2]
          simp only [List.length_cons] at hlen ⊢
          omega
        · exact absurd h (by simp)
      · exact absurd h (by simp)
    · exact absurd h (by simp)
  · exact absurd h (by simp)

/-- Non-overlapping left-to-right scan of `re.findall` for the pattern above:
try a match at every position; on success continue after the matched text,
otherwise advance one character. -/
def scanAll : List Char → List String
  | [] => []
  | c :: cs =>
    match h : matchAt (c :: cs) with
    | some (nm, rest) => nm :: scanAll rest
    | none => scanAll cs
termination_by l => l.length
decreasing_by
  · exact matchAt_rest_lt h
  · simp

/-- The scan `re.findall(r'\.\{([_A-Za-z][_a-zA-Z0-9]*)\}.', value)` — the list of
captured constant names, in scan order. -/
def findallAny (s : String) : List String :=
  scanAll s.data

/-- Modelled from the spec: the same scan but for the pattern the spec
describes, `.{NAME}.` with a literal final dot. -/
def specMatchAtDot : List Char → Option (String × List Char)
  | c0 :: c1 :: c :: cs =>
    if c0 = '.' ∧ c1 = '{' ∧ isNameStart c then
      match spanName cs with
      | (tl, r1 :: r2 :: rest) =>
        if r1 = '}' ∧ r2 = '.' then some (String.mk (c :: tl), rest) else none
      | _ => none
    else none
  | _ => none

theorem specMatchAtDot_rest_lt {l : List Char} {nm : String} {rest : List Char}
    (h : specMatchAtDot l = some (nm, rest)) : rest.length < l.length := by
  unfold specMatchAtDot at h
  split at h
  · rename_i c0 c1 c cs
    split at h
    · split at h
      · rename_i tl r1 r2 rest2 heq
        split at h
        · have hlen := spanName_snd_length cs
          rw [heq] at hlen
          simp only [Option.some.injEq, Prod.mk.injEq] at h
          rw [← h.2]
          simp only [List.length_cons] at hlen ⊢
          omega
        · exact absurd h (by simp)
      · exact absurd h (by simp)
    · exact absurd h (by simp)
  · exact absurd h (by simp)

/-- Modelled from the spec: non-overlapping scan for literal `.{NAME}.`
occurrences (the pattern as the spec words it). -/
def specScanDot : List Char → List String
  | [] => []
  | c :: cs =>
    match h : specMatchAtDot (c :: cs) with
    | some (nm, rest) => nm :: specScanDot rest
    | none => specScanDot cs
termination_by l => l.length
decreasing_by
  · exact specMatchAtDot_rest_lt h
  · simp

/-- Modelled from the spec: names found by the literal-dot scan. -/
def specFindallDot (s : String) : List String :=
  specScanDot s.data

/-- Python `str.replace` on character lists: replace every non-overlapping
occurrence of `o`, left to right.  Call sites always pass a non-empty
pattern (`.{NAME}.`). -/
def replaceAux (o n : List Char) : List Char → List Char
  | [] => []
  | c :: cs =>
    if h : o ≠ [] ∧ o.isPrefixOf (c :: cs) then
      n ++ replaceAux o n ((c :: cs).drop o.length)
    else
      c :: replaceAux o n cs
termination_by l => l.length
decreasing_by
  · have ho : 0 < o.length := List.length_pos.mpr h.1
    simp only [List.length_drop, List.length_cons]
    omega
  · simp

/-- Python `value.replace(old, new)` (`str.replace`). -/
def str_replace (s o n : String) : String :=
  String.mk (replaceAux o.data n.data s.data)

mutual

/-- Python `repr` of a plain value, used by `str()` on lists and dicts.
Containers and unknown kinds only arise here for pathological documents and
no claim depends on their exact text. -/
def pyRepr : Value → String
  | .bool b => if b then "True" else "False"
  | .int n => toString n
  | .float t => t
  | .str s => "'" ++ s ++ "'"
  | .arr xs => "[" ++ pyReprList xs ++ "]"
  | .table es => "\x7b" ++ pyReprEntries es ++ "\x7d"
  | .inlineTable es => "\x7b" ++ pyReprEntries es ++ "\x7d"
  | .other t => t

def pyReprList : List Value → String
  | [] => ""
  | [v] => pyRepr v
  | v :: rest => pyRepr v ++ ", " ++ pyReprList rest

def pyReprEntries : List (String × Value) → String
  | [] => ""
  | [(k, v)] => "'" ++ k ++ "': " ++ pyRepr v
  | (k, v) :: rest => "'" ++ k ++ "': " ++ pyRepr v ++ ", " ++ pyReprEntries rest

end

/-- Python `str(value)` as applied to a constant's resolved value
(`main.py` line 113).  A boolean in the tree is a plain Python `bool`
(the serializer's `isinstance(value, bool)` branch requires this), and
`str(True)` is `"True"`, capitalized. -/
def pyStr : Value → String
  | .str s => s
  | v => pyRepr v

/-- Python `str(const_value)` where `get_constant_value` may have returned `None`:
Python renders `None` as the text `"None"`. -/
def pyStrOpt : Option Value → String
  | some v => pyStr v
  | none => "None"

/-- Python substring test `needle in hay`, as a scan over the haystack
(the empty needle is contained in every string). -/
def pySubstr (needle : List Char) : List Char → Bool
  | [] => needle.isPrefixOf []
  | c :: cs => needle.isPrefixOf (c :: cs) || pySubstr needle cs

/-- Python `const_name in value` (`main.py` line 150): key membership for a
dict, substring test for a string, element equality for a list; on a
non-container operand (int, float, bool, or an unhandled host object) the
host raises `TypeError`. -/
def pyIn (name : String) : Value → Except Unit Bool
  | .table es => .ok (es.any (fun e => e.1 = name))
  | .inlineTable es => .ok (es.any (fun e => e.1 = name))
  | .str s => .ok (pySubstr name.data s.data)
  | .arr xs => .ok (xs.any (fun v => match v with | .str m => m = name | _ => false))
  | _ => .error ()

/-- Python `value[const_name]` (`main.py` line 151): dict lookup; indexing a
string or list with a string key raises `TypeError`.  The missing-key case
(`KeyError`) is unreachable at the call site, which has just checked
membership; it is folded into the error case. -/
def pyGetItem (v : Value) (name : String) : Except Unit Value :=
  match v with
  | .table es =>
    match es.lookup name with
    | some r => .ok r
    | none => .error ()
  | .inlineTable es =>
    match es.lookup name with
    | some r => .ok r
    | none => .error ()
  | _ => .error ()

mutual

/-- The resolver `get_constant_value(obj, const_name)` (`main.py` lines 144-161):
depth-first search for a table keyed "constants" (case-insensitively) that
contains the name; `None` (here `Option.none`) when nothing is found.  The
error case is the host `TypeError` raised by `in` or indexing; it is mapped
to `TErr.typeError` where the callers of `get_constant_value` let it
propagate. -/
def get_constant_value : Value → String → Except Unit (Option Value)
  | .table es, name => getConstEntries es name
  | .inlineTable es, name => getConstEntries es name
  | .arr xs, name => getConstItems xs name
  | _, _ => .ok none

def getConstEntries : List (String × Value) → String → Except Unit (Option Value)
  | [], _ => .ok none
  | (k, v) :: rest, name =>
    if pyLower k = "constants" then
      match pyIn name v with
      | .error e => .error e
      | .ok true =>
        match pyGetItem v name with
        | .error e => .error e
        | .ok r => .ok (some r)
      | .ok false =>
        match get_constant_value v name with
        | .error e => .error e
        | .ok (some f) => .ok (some f)
        | .ok none => getConstEntries rest name
    else
      match get_constant_value v name with
      | .error e => .error e
      | .ok (some f) => .ok (some f)
      | .ok none => getConstEntries rest name

def getConstItems : List Value → String → Except Unit (Option Value)
  | [], _ => .ok none
  | v :: rest, name =>
    match get_constant_value v name with
    | .error e => .error e
    | .ok (some f) => .ok (some f)
    | .ok none => getConstItems rest name

end

/-- The loop body of `replace_constants_in_string`: for each scanned name,
raise `UndefinedConstant` if it was never registered, otherwise resolve it
and replace every literal `.{NAME}.` occurrence with `str()` of the value. -/
def substLoop (consts : List String) (toml_doc : Value) :
    List String → String → Except TErr String
  | [], v => .ok v
  | m :: rest, v =>
    if consts.contains m then
      match get_constant_value toml_doc m with
      | .error _ => .error .typeError
      | .ok r =>
        substLoop consts toml_doc rest
          (str_replace v ("." ++ "\x7b" ++ m ++ "\x7d" ++ ".") (pyStrOpt r))
    else .error (.undefinedConstant m)

/-- The substitution step `replace_constants_in_string(value, toml_doc)` (`main.py` lines 101-114).
The match list is computed once, from the original string. -/
def replace_constants_in_string (value : String) (consts : List String)
    (toml_doc : Value) : Except TErr String :=
  substLoop consts toml_doc (findallAny value) value

/-- The name carried by an `UndefinedConstant` failure, if the result is one. -/
def undefErrName : Except TErr String → Option String
  | .error (.undefinedConstant n) => some n
  | _ => none

/-- The inner loop of `collect_constants` over one "constants" table: for
each key, validate it, reject names already in the accumulated global set,
otherwise append. -/
def registerConsts : List (String × Value) → List String → Except TErr (List String)
  | [], acc => .ok acc
  | (n, _) :: rest, acc =>
    if ¬ name_pattern_match n then .error (.invalidConstantName n)
    else if acc.contains n then .error (.duplicateConstant n)
    else registerConsts rest (acc ++ [n])

mutual

/-- Discovery, `collect_constants(obj)` (`main.py` lines 79-98), with the process-wide
mutable set `consts` made explicit as an insertion-ordered accumulator.
For each key equal to "constants" case-insensitively the associated value
must be a dict and its keys are registered; every other value is recursed
into. -/
def collect_constants : Value → List String → Except TErr (List String)
  | .table es, acc => collectEntries es acc
  | .inlineTable es, acc => collectEntries es acc
  | .arr xs, acc => collectItems xs acc
  | _, acc => .ok acc

def collectEntries : List (String × Value) → List String → Except TErr (List String)
  | [], acc => .ok acc
  | (k, v) :: rest, acc =>
    if pyLower k = "constants" then
      match v with
      | .table ces =>
        match registerConsts ces acc with
        | .error e => .error e
        | .ok acc2 => collectEntries rest acc2
      | .inlineTable ces =>
        match registerConsts ces acc with
        | .error e => .error e
        | .ok acc2 => collectEntries rest acc2
      | _ => .error .invalidConstantsValue
    else
      match collect_constants v acc with
      | .error e => .error e
      | .ok acc2 => collectEntries rest acc2

def collectItems : List Value → List String → Except TErr (List String)
  | [], acc => .ok acc
  | v :: rest, acc =>
    match collect_constants v acc with
    | .error e => .error e
    | .ok acc2 => collectItems rest acc2

end

/-- Whether a value is a Python `dict` in the host program (tomlkit tables
and inline tables both are). -/
def isDict : Value → Bool
  | .table _ => true
  | .inlineTable _ => true
  | _ => false

/-- Entry list of a dict value (empty for non-dicts). -/
def dictEntries : Value → List (String × Value)
  | .table es => es
  | .inlineTable es => es
  | _ => []

mutual

/-- The (name, value) pairs that the discovery traversal reads out of
"constants" tables, in document order, ignoring validity: the syntactic
declaration sequence of the document. -/
def declPairs : Value → List (String × Value)
  | .table es => declPairsEntries es
  | .inlineTable es => declPairsEntries es
  | .arr xs => declPairsItems xs
  | _ => []

def declPairsEntries : List (String × Value) → List (String × Value)
  | [] => []
  | (k, v) :: rest =>
    (if pyLower k = "constants" then dictEntries v else declPairs v)
      ++ declPairsEntries rest

def declPairsItems : List Value → List (String × Value)
  | [] => []
  | v :: rest => declPairs v ++ declPairsItems rest

end

/-- Declared constant names in discovery (document) order. -/
def declList (v : Value) : List String :=
  (declPairs v).map Prod.fst

mutual

/-- Every value sitting under a case-insensitive "constants" key reachable
by the discovery traversal is a dict (so discovery never raises
`InvalidConstantsValue`). -/
def constTablesOk : Value → Bool
  | .table es => constTablesOkEntries es
  | .inlineTable es => constTablesOkEntries es
  | .arr xs => constTablesOkItems xs
  | _ => true

def constTablesOkEntries : List (String × Value) → Bool
  | [] => true
  | (k, v) :: rest =>
    (if pyLower k = "constants" then isDict v else constTablesOk v)
      && constTablesOkEntries rest

def constTablesOkItems : List Value → Bool
  | [] => true
  | v :: rest => constTablesOk v && constTablesOkItems rest

end

/-- First name of the list already seen (scanning left to right with the
accumulated set `seen`): the name whose second occurrence comes first. -/
def firstDupFrom (seen : List String) : List String → Option String
  | [] => none
  | n :: rest => if seen.contains n then some n else firstDupFrom (seen ++ [n]) rest

mutual

/-- The serializer `process_value(value, d, toml_doc)` (`main.py` lines 59-76): dynamic
dispatch on the value kind, in the `isinstance` order of the source
(bool, then int/float, then str, then list, then dict, else an
`Unsupported type` error). -/
def process_value (v : Value) (d : Nat) (consts : List String) (toml_doc : Value) :
    Except TErr String :=
  match v with
  | .bool b => .ok (if b then "true" else "false")
  | .int n => .ok (toString n)
  | .float t => .ok t
  | .str s =>
    match replace_constants_in_string s consts toml_doc with
    | .error e => .error e
    | .ok s2 => .ok ("\"" ++ s2 ++ "\"")
  | .arr xs => process_array xs d consts toml_doc
  | .table es => process_dict es d consts toml_doc
  | .inlineTable es => process_dict es d consts toml_doc
  | .other t => .error (.unsupportedType t)

/-- Arrays: `process_array(arr, d, toml_doc)` (`main.py` lines 15-23):
`#( v1, v2, ..., vn )`, elements rendered at the same depth. -/
def process_array (xs : List Value) (d : Nat) (consts : List String)
    (toml_doc : Value) : Except TErr String :=
  match arrayItems xs d consts toml_doc with
  | .error e => .error e
  | .ok ls => .ok ("#( " ++ String.intercalate ", " ls ++ " )")

def arrayItems (xs : List Value) (d : Nat) (consts : List String)
    (toml_doc : Value) : Except TErr (List String) :=
  match xs with
  | [] => .ok []
  | v :: rest =>
    match process_value v d consts toml_doc with
    | .error e => .error e
    | .ok s =>
      match arrayItems rest d consts toml_doc with
      | .error e => .error e
      | .ok ls => .ok (s :: ls)

/-- Tables: `process_dict(obj, d, toml_doc)` (`main.py` lines 26-44): validate each
key, render each value at `d + 1`, join the entry lines with `",\n"`, and
close with `]` indented one level shallower. -/
def process_dict (es : List (String × Value)) (d : Nat) (consts : List String)
    (toml_doc : Value) : Except TErr String :=
  match entryLines es d consts toml_doc with
  | .error e => .error e
  | .ok ls =>
    .ok ("$[\n" ++ String.intercalate ",\n" ls ++ "\n" ++ tabs (d - 1) ++ "]")

def entryLines (es : List (String × Value)) (d : Nat) (consts : List String)
    (toml_doc : Value) : Except TErr (List String) :=
  match es with
  | [] => .ok []
  | (k, v) :: rest =>
    if ¬ name_pattern_match k then .error (.unsupportedIdentifier k)
    else
      match process_value v (d + 1) consts toml_doc with
      | .error e => .error e
      | .ok pv =>
        match entryLines rest d consts toml_doc with
        | .error e => .error e
        | .ok ls => .ok ((tabs d ++ k ++ " = " ++ pv) :: ls)

end

/-- One iteration of `process_constants` (`main.py` lines 131-141): resolve
the name in the document and render the declaration line; a `None`
resolution result reaches `process_value` as the host `None` object, whose
kind is unsupported. -/
def declLines (order : List String) (consts : List String) (toml_doc : Value) :
    Except TErr (List String) :=
  match order with
  | [] => .ok []
  | n :: rest =>
    match get_constant_value toml_doc n with
    | .error _ => .error .typeError
    | .ok none => .error (.unsupportedType "NoneType")
    | .ok (some v) =>
      match process_value v 1 consts toml_doc with
      | .error e => .error e
      | .ok pv =>
        match declLines rest consts toml_doc with
        | .error e => .error e
        | .ok ls => .ok (("def " ++ n ++ " := " ++ pv ++ ";") :: ls)

/-- Declarations: `process_constants(obj)` (`main.py` lines 131-141).  The source iterates
the Python set `consts`; its iteration order is implementation-defined, so
it is made explicit here as the parameter `order` (some enumeration of the
registered names chosen by the host). -/
def process_constants (order : List String) (consts : List String)
    (toml_doc : Value) : Except TErr String :=
  match declLines order consts toml_doc with
  | .error e => .error e
  | .ok ls => .ok (String.intercalate "\n" ls)

/-- Body lines of one section in `process_object` (`main.py` lines 176-186):
keys equal to "constants" or "comments" (case-insensitively) are skipped,
every other key is validated and rendered at depth `d + 1`. -/
def sectionBody (es : List (String × Value)) (d : Nat) (consts : List String)
    (toml_doc : Value) : Except TErr String :=
  match es with
  | [] => .ok ""
  | (k, v) :: rest =>
    if pyLower k = "constants" then sectionBody rest d consts toml_doc
    else if pyLower k = "comments" then sectionBody rest d consts toml_doc
    else if ¬ name_pattern_match k then .error (.unsupportedIdentifier k)
    else
      match process_value v (d + 1) consts toml_doc with
      | .error e => .error e
      | .ok pv =>
        match sectionBody rest d consts toml_doc with
        | .error e => .error e
        | .ok s => .ok (tabs (d + 1) ++ k ++ " = " ++ pv ++ "\n" ++ s)

/-- The section emitter `process_object(toml_doc, d)` (`main.py` lines 164-203) over the
document's top-level entries: only `items.Table` values are sections
(`.table` here); inline tables hit the explicit `pass` branch and every
other value kind matches no branch, so both are skipped.  Comment trivia
(`section.trivia.comment` and `items.Comment` entries), which the spec
excludes from the data model and from equality checks, is not modelled:
sections are rendered as if they carry no comment. -/
def process_object (entries : List (String × Value)) (d : Nat)
    (consts : List String) (toml_doc : Value) : Except TErr String :=
  match entries with
  | [] => .ok ""
  | (name, v) :: rest =>
    match v with
    | .table es =>
      if ¬ name_pattern_match name then .error (.unsupportedSectionName name)
      else
        match sectionBody es d consts toml_doc with
        | .error e => .error e
        | .ok body =>
          match process_object rest d consts toml_doc with
          | .error e => .error e
          | .ok restOut =>
            .ok (tabs d ++ name ++ " = $[\n" ++ body ++ tabs d ++ "]" ++ "\n"
                  ++ restOut)
    | _ => process_object rest d consts toml_doc

/-- Whether an `Except` result is a success. -/
def isOkE {ε α : Type} : Except ε α → Bool
  | .ok _ => true
  | .error _ => false

/-- C7 counterexample: the validator accepts `"A\n"`, a string that is not
exactly one letter/underscore followed by letters/digits/underscores and
nothing else, because Python `re.match` with a trailing `$` also matches
just before one final newline. -/
theorem c7_counterexample :
    name_pattern_match "A\n" = true ∧ specExactIdent "A\n" = false := by
  constructor
  · decide
  · decide

/-- C7 (amended): the identifier validator, a pure function, returns true
exactly when the string matches `^[A-Za-z_][A-Za-z0-9_]*$` under Python
`re.match` semantics: the string is a valid identifier, or a valid
identifier followed by a single trailing newline. -/
theorem c7_amended (s : String) :
    name_pattern_match s = true ↔
      ∃ core : String, (s = core ∨ s = core ++ "\n") ∧ specExactIdent core = true := by
  constructor
  · intro h
    unfold name_pattern_match at h
    rw [Bool.or_eq_true] at h
    cases h with
    | inl h1 => exact ⟨s, Or.inl rfl, h1⟩
    | inr h2 =>
      cases hl : s.data.getLast? with
      | none => rw [hl] at h2; simp at h2
      | some c =>
        rw [hl] at h2
        simp only [Bool.and_eq_true, decide_eq_true_eq] at h2
        have hne : s.data ≠ [] := by
          intro he
          rw [he] at hl
          simp at hl
        have hlast := List.getLast?_eq_getLast s.data hne
        rw [hl] at hlast
        have hc : s.data.getLast hne = c := by
          injection hlast with hh
          exact hh.symm
        have hdecomp : s.data.dropLast ++ ['\n'] = s.data := by
          have := List.dropLast_append_getLast hne
          rw [hc, h2.1] at this
          exact this
        refine ⟨String.mk s.data.dropLast, Or.inr ?_, h2.2⟩
        calc s = String.mk s.data := rfl
          _ = String.mk (s.data.dropLast ++ ['\n']) := by rw [hdecomp]
          _ = String.mk s.data.dropLast ++ "\n" := rfl
  · rintro ⟨core, hor, hcore⟩
    unfold name_pattern_match
    rw [Bool.or_eq_true]
    cases hor with
    | inl he =>
      left
      rw [he]
      exact hcore
    | inr he =>
      right
      rw [he]
      have hdata : (core ++ "\n").data = core.data ++ ['\n'] := String.data_append core "\n"
      rw [hdata, List.getLast?_concat _]
      simp only [List.dropLast_concat, Bool.and_eq_true, decide_eq_true_eq]
      exact ⟨trivial, hcore⟩

theorem substLoop_undef (cs : List String) (doc : Value)
    (h : ∀ m ∈ cs, isOkE (get_constant_value doc m) = true) :
    ∀ (ms : List String) (v : String),
      (undefErrName (substLoop cs doc ms v)).isSome
        = ms.any (fun m => ! cs.contains m) := by
  intro ms
  induction ms with
  | nil => intro v; simp [substLoop, undefErrName]
  | cons m rest ih =>
    intro v
    by_cases hm : cs.contains m
    · have hmem : m ∈ cs := by
        rw [← List.elem_iff]
        exact hm
      have hok := h m hmem
      cases hgo : get_constant_value doc m with
      | error e =>
        rw [hgo] at hok
        simp [isOkE] at hok
      | ok r =>
        simp only [substLoop, hm, if_pos, hgo]
        rw [ih]
        simp [hm]
        exact fun hcon => absurd hmem hcon
    · simp only [substLoop, hm, if_neg]
      simp only [Bool.not_eq_true] at hm
      simp [undefErrName, hm]
      exact Or.inl (fun hmem => by
        have h1 : cs.contains m = true := List.elem_iff.mpr hmem
        rw [h1] at hm
        cases hm)

theorem substLoop_noUndef (cs : List String) (doc : Value) :
    ∀ (ms : List String) (v : String),
      (∀ m ∈ ms, cs.contains m = true) →
      undefErrName (substLoop cs doc ms v) = none := by
  intro ms
  induction ms with
  | nil => intro v _; simp [substLoop, undefErrName]
  | cons m rest ih =>
    intro v hall
    have hm : cs.contains m = true := hall m (List.mem_cons_self m rest)
    have hmem : m ∈ cs := List.elem_iff.mp hm
    cases hgo : get_constant_value doc m with
    | error e => simp [substLoop, hm, hmem, hgo, undefErrName]
    | ok r =>
      simp only [substLoop, hm, if_pos, hgo]
      exact ih _ (fun x hx => hall x (List.mem_cons_of_mem m hx))

/-- C1 counterexample: the string `".{X}Z"` contains no occurrence of the
spec's pattern `.{NAME}.` (dot, brace, name, brace, dot), yet substitution
with an empty registry fails with `UndefinedConstant "X"`, because the
unescaped trailing `.` of the source regex matches the character `Z`. -/
theorem c1_counterexample :
    specFindallDot ".{X}Z" = [] ∧
      undefErrName (replace_constants_in_string ".{X}Z" [] (.table [])) = some "X" := by
  constructor
  · simp [specFindallDot, specScanDot, specMatchAtDot, spanName, isNameStart, isNameChar]
  · simp [replace_constants_in_string, findallAny, scanAll, matchAt, spanName,
      isNameStart, isNameChar, substLoop, undefErrName]

/-- C1 (amended): substitution fails with `UndefinedConstant` exactly when
the scan — `.{NAME}` followed by any single non-newline character, scanned
left to right without overlap — finds a name outside the registry, provided
every registered name resolves without a host type error; and
unconditionally, a string whose scan finds only registered names never
fails with `UndefinedConstant`. -/
theorem c1_amended (s : String) (cs : List String) (doc : Value) :
    ((∀ m ∈ cs, isOkE (get_constant_value doc m) = true) →
      (undefErrName (replace_constants_in_string s cs doc)).isSome
        = (findallAny s).any (fun m => ! cs.contains m)) ∧
    ((∀ m ∈ findallAny s, cs.contains m = true) →
      undefErrName (replace_constants_in_string s cs doc) = none) := by
  constructor
  · intro h
    exact substLoop_undef cs doc h (findallAny s) s
  · intro h
    exact substLoop_noUndef cs doc (findallAny s) s h

/-- C1 witness: at the string `".{X}."` with an empty registry, the scan
finds the unregistered `X` and substitution indeed reports it undefined;
at `"no refs here"` every scanned name (there are none) is registered and
no `UndefinedConstant` arises. -/
theorem c1_witness :
    (undefErrName (replace_constants_in_string ".{X}." [] (.table []))).isSome
      = (findallAny ".{X}.").any (fun m => ! List.contains [] m) ∧
    undefErrName (replace_constants_in_string "no refs here" [] (.table [])) = none := by
  constructor
  · exact (c1_amended ".{X}." [] (.table [])).1 (by intro m hm; simp at hm)
  · refine (c1_amended "no refs here" [] (.table [])).2 ?_
    intro m hm
    revert hm
    simp [findallAny, scanAll, matchAt, spanName, isNameStart, isNameChar]

theorem spanName_append (ds : List Char) (t : Char) (ts : List Char)
    (h1 : ∀ x ∈ ds, isNameChar x = true) (h2 : isNameChar t = false) :
    spanName (ds ++ t :: ts) = (ds, t :: ts) := by
  induction ds with
  | nil => simp [spanName, h2]
  | cons d ds ih =>
    have hd : isNameChar d = true := h1 d (List.mem_cons_self d ds)
    simp only [List.cons_append, spanName, hd, if_true, List.append_eq]
    rw [ih (fun x hx => h1 x (List.mem_cons_of_mem d hx))]

theorem matchAt_shape (d : Char) (ds : List Char) (c : Char)
    (hstart : isNameStart d = true) (hall : ∀ x ∈ ds, isNameChar x = true)
    (hc : ¬ c = '\n') :
    matchAt ('.' :: '{' :: d :: (ds ++ '}' :: c :: [])) = some (String.mk (d :: ds), []) := by
  rw [matchAt]
  rw [spanName_append ds '}' [c] hall (by decide)]
  simp [hstart, hc]

theorem scanAll_shape (d : Char) (ds : List Char) (c : Char)
    (hstart : isNameStart d = true) (hall : ∀ x ∈ ds, isNameChar x = true)
    (hc : ¬ c = '\n') :
    scanAll ('.' :: '{' :: d :: (ds ++ '}' :: c :: [])) = [String.mk (d :: ds)] := by
  rw [scanAll]
  split
  · rename_i nm rest heq
    rw [matchAt_shape d ds c hstart hall hc] at heq
    injection heq with heq2
    injection heq2 with ha hb
    rw [← ha, ← hb]
    rw [scanAll]
  · rename_i heq
    rw [matchAt_shape d ds c hstart hall hc] at heq
    cases heq

theorem contains_false_not_mem {cs : List String} {m : String}
    (h : cs.contains m = false) : m ∉ cs := by
  intro hm
  have h1 : cs.contains m = true := List.elem_iff.mpr hm
  rw [h1] at h
  cases h

/-- C10 counterexample: the string `".{X}\n"` consists of a dot, a brace, a
valid identifier, a brace, and then one character (a newline), yet the
substitution step succeeds untouched instead of failing with
`UndefinedConstant`: the unescaped `.` of the source regex matches any
character except a newline. -/
theorem c10_counterexample :
    replace_constants_in_string ".{X}\n" [] (.table []) = .ok ".{X}\n" := by
  simp [replace_constants_in_string, findallAny, scanAll, matchAt, spanName,
    isNameStart, isNameChar, substLoop]

/-- C10 (amended): the scan is triggered by `.{NAME}` followed by any single
character other than a newline — such an occurrence with an unregistered
`NAME` fails with `UndefinedConstant` naming it — while the subsequent
replacement rewrites only literal `.{NAME}.` substrings, leaving a match
whose trailing character is not a dot unchanged in the output. -/
theorem c10_amended :
    (∀ (name : String) (c : Char) (cs : List String) (doc : Value),
      identCore name.data = true → ¬ c = '\n' → cs.contains name = false →
      undefErrName (replace_constants_in_string
          ("." ++ "\x7b" ++ name ++ "\x7d" ++ String.singleton c) cs doc)
        = some name) ∧
    replace_constants_in_string ".{A}x.{A}.y" ["A"]
        (.table [("constants", .table [("A", .int 1)])])
      = .ok ".{A}x1y" := by
  constructor
  · intro name c cs doc hident hc hreg
    cases hd : name.data with
    | nil => rw [hd] at hident; simp [identCore] at hident
    | cons d ds =>
      rw [hd] at hident
      simp only [identCore, Bool.and_eq_true, List.all_eq_true] at hident
      have hdata : ("." ++ "\x7b" ++ name ++ "\x7d" ++ String.singleton c).data
          = '.' :: '{' :: d :: (ds ++ '}' :: c :: []) := by
        simp [String.data_append, hd]
      unfold replace_constants_in_string findallAny
      rw [hdata, scanAll_shape d ds c hident.1 hident.2 hc]
      have hname : String.mk (d :: ds) = name := by
        rw [← hd]
      rw [hname]
      simp [substLoop, contains_false_not_mem hreg, undefErrName]
  · simp only [replace_constants_in_string, findallAny]
    have h1 : (toString (1 : Int)).data = ['1'] := rfl
    simp [scanAll, matchAt, spanName, isNameStart, isNameChar, substLoop,
      get_constant_value, getConstEntries, pyIn, pyGetItem, pyLower, pyStrOpt,
      pyStr, pyRepr, str_replace, replaceAux, List.lookup, undefErrName, h1]

/-- C10 witness: instantiating the amended scan property at the identifier
`X`, the trailing character `Z`, an empty registry and an empty document. -/
theorem c10_witness :
    undefErrName (replace_constants_in_string
        ("." ++ "\x7b" ++ "X" ++ "\x7d" ++ String.singleton 'Z') [] (.table []))
      = some "X" :=
  c10_amended.1 "X" 'Z' [] (.table []) (by decide) (by decide) (by decide)

/-- C2 counterexample: a boolean constant referenced from a string is
substituted via Python `str()` of a plain `bool`, producing the capitalized
`"True"`, not the claimed canonical form `"true"`.  Discovery on this
document registers exactly `FLAG`. -/
theorem c2_counterexample :
    collect_constants (.table [("constants", .table [("FLAG", .bool true)])]) []
        = .ok ["FLAG"] ∧
    replace_constants_in_string ".{FLAG}." ["FLAG"]
        (.table [("constants", .table [("FLAG", .bool true)])])
      = .ok "True" ∧
    "True" ≠ "true" := by
  refine ⟨?_, ?_, by decide⟩
  · simp [collect_constants, collectEntries, registerConsts, pyLower,
      name_pattern_match, identCore, isNameStart, isNameChar]
  · simp [replace_constants_in_string, findallAny, scanAll, matchAt, spanName,
      isNameStart, isNameChar, substLoop, get_constant_value, getConstEntries,
      pyIn, pyGetItem, pyLower, pyStrOpt, pyStr, pyRepr, str_replace, replaceAux,
      List.lookup]

/-- C2 (amended): a string consisting of one placeholder of a registered
constant is replaced by Python `str()` of the resolved value: booleans as
`True`/`False` (Python capitalization), integers as their decimal text,
floats as the host's decimal text, and strings inserted without added
quotation; nothing else is altered. -/
theorem c2_amended :
    (∀ v : Value,
      replace_constants_in_string ".{C}." ["C"]
          (.table [("constants", .table [("C", v)])])
        = .ok (pyStr v)) ∧
    pyStr (.bool true) = "True" ∧
    pyStr (.bool false) = "False" ∧
    (∀ n : Int, pyStr (.int n) = toString n) ∧
    (∀ t : String, pyStr (.float t) = t) ∧
    (∀ s : String, pyStr (.str s) = s) := by
  refine ⟨?_, rfl, rfl, fun n => rfl, fun t => rfl, fun s => rfl⟩
  intro v
  simp [replace_constants_in_string, findallAny, scanAll, matchAt, spanName,
    isNameStart, isNameChar, substLoop, get_constant_value, getConstEntries,
    pyIn, pyGetItem, pyLower, pyStrOpt, str_replace, replaceAux, List.lookup]

/-- The payload of a successful rendering (used to state the entry-line
format; the format theorem's hypotheses guarantee the success case). -/
def okStr : Except TErr String → String
  | .ok s => s
  | .error _ => ""

theorem entryLines_format (d : Nat) (cs : List String) (doc : Value) :
    ∀ es : List (String × Value),
      (∀ p ∈ es, name_pattern_match p.1 = true) →
      (∀ p ∈ es, isOkE (process_value p.2 (d + 1) cs doc) = true) →
      entryLines es d cs doc
        = .ok (es.map (fun p => tabs d ++ p.1 ++ " = "
            ++ okStr (process_value p.2 (d + 1) cs doc))) := by
  intro es
  induction es with
  | nil => intro _ _; simp [entryLines]
  | cons p rest ih =>
    intro h1 h2
    have hk : name_pattern_match p.1 = true := h1 p (List.mem_cons_self p rest)
    have hv := h2 p (List.mem_cons_self p rest)
    cases hpv : process_value p.2 (d + 1) cs doc with
    | error e => rw [hpv] at hv; simp [isOkE] at hv
    | ok pv =>
      have hrest := ih (fun q hq => h1 q (List.mem_cons_of_mem p hq))
        (fun q hq => h2 q (List.mem_cons_of_mem p hq))
      cases p with
      | mk k v =>
        simp only [entryLines, hk, Bool.not_true, if_neg, hpv, hrest,
          List.map_cons, okStr]
        simp [hpv, okStr]

/-- C4 (code evaluation at the failing input): the value serializer renders
the table `{host = "localhost", port = 8080}` at depth 1 with a comma after
the first entry line (`",\n".join`), so the entry lines are not the
comma-free `host = "localhost"` and `port = 8080` that the claim (and the
repository's own expected outputs for nested tables) describe. -/
theorem c4_eval :
    process_dict [("host", .str "localhost"), ("port", .int 8080)] 1 [] (.table [])
        = .ok "$[\n\thost = \"localhost\",\n\tport = 8080\n]" ∧
    "$[\n\thost = \"localhost\",\n\tport = 8080\n]"
        ≠ "$[\n\thost = \"localhost\"\n\tport = 8080\n]" := by
  constructor
  · have h1 : process_value (.str "localhost") 2 [] (.table []) = .ok "\"localhost\"" := by
      simp [process_value, replace_constants_in_string, findallAny, scanAll,
        matchAt, spanName, isNameStart, isNameChar, substLoop]
    have h2 : process_value (.int 8080) 2 [] (.table []) = .ok "8080" := by
      simp [process_value]
      rfl
    have hk : ∀ p ∈ [("host", Value.str "localhost"), ("port", Value.int 8080)],
        name_pattern_match p.1 = true := by
      intro p hp
      simp at hp
      rcases hp with h | h <;> (subst h; decide)
    have hv : ∀ p ∈ [("host", Value.str "localhost"), ("port", Value.int 8080)],
        isOkE (process_value p.2 (1 + 1) [] (.table [])) = true := by
      intro p hp
      simp at hp
      rcases hp with h | h <;> subst h
      · show isOkE (process_value (Value.str "localhost") 2 [] (Value.table [])) = true
        rw [h1]
        rfl
      · show isOkE (process_value (Value.int 8080) 2 [] (Value.table [])) = true
        rw [h2]
        rfl
    have h3 := entryLines_format 1 [] (.table [])
      [("host", .str "localhost"), ("port", .int 8080)] hk hv
    simp only [process_dict, h3, List.map_cons, List.map_nil]
    have e1 : okStr (process_value (Value.str "localhost") (1 + 1) [] (Value.table [])) = "\"localhost\"" := by
      show okStr (process_value (Value.str "localhost") 2 [] (Value.table [])) = "\"localhost\""
      rw [h1]
      rfl
    have e2 : okStr (process_value (Value.int 8080) (1 + 1) [] (Value.table [])) = "8080" := by
      show okStr (process_value (Value.int 8080) 2 [] (Value.table [])) = "8080"
      rw [h2]
      rfl
    rw [e1, e2]
    rfl
  · decide

/-- C5 counterexample: on a table whose first entry has an unsupported value
kind and whose second entry has a key failing the identifier grammar, the
serializer fails with `UnsupportedType`, not with the `UnsupportedIdentifier`
the claim requires whenever any key fails the grammar: errors are detected
in entry order. -/
theorem c5_counterexample :
    process_dict [("a", .other "datetime"), ("b-c", .int 1)] 1 [] (.table [])
        = .error (.unsupportedType "datetime") ∧
    (Except.error (.unsupportedType "datetime") : Except TErr String)
        ≠ .error (.unsupportedIdentifier "b-c") := by
  constructor
  · simp [process_dict, entryLines, process_value, name_pattern_match,
      identCore, isNameStart, isNameChar]
  · intro h
    injection h with h2
    exact TErr.noConfusion h2

/-- C5 (amended): for a table handed to the value serializer at depth `d`,
when every key passes the identifier grammar and every entry value renders,
the output is `$[`, a newline, one line per entry `indent(d) key = value`
joined by comma-newline, and `]` indented one level shallower; failures are
reported in entry order with the key checked before the value: a leading
invalid key gives `UnsupportedIdentifier`, a leading unsupported value kind
(outside bool/int/float/string/array/table) gives `UnsupportedType`. -/
theorem c5_amended :
    (∀ (es : List (String × Value)) (d : Nat) (cs : List String) (doc : Value),
      (∀ p ∈ es, name_pattern_match p.1 = true) →
      (∀ p ∈ es, isOkE (process_value p.2 (d + 1) cs doc) = true) →
      process_dict es d cs doc
        = .ok ("$[\n"
            ++ String.intercalate ",\n" (es.map (fun p => tabs d ++ p.1 ++ " = "
                ++ okStr (process_value p.2 (d + 1) cs doc)))
            ++ "\n" ++ tabs (d - 1) ++ "]")) ∧
    (∀ (k : String) (v : Value) (rest : List (String × Value)) (d : Nat)
        (cs : List String) (doc : Value),
      name_pattern_match k = false →
      process_dict ((k, v) :: rest) d cs doc = .error (.unsupportedIdentifier k)) ∧
    (∀ (k t : String) (rest : List (String × Value)) (d : Nat)
        (cs : List String) (doc : Value),
      name_pattern_match k = true →
      process_dict ((k, .other t) :: rest) d cs doc = .error (.unsupportedType t)) := by
  refine ⟨?_, ?_, ?_⟩
  · intro es d cs doc h1 h2
    rw [process_dict, entryLines_format d cs doc es h1 h2]
  · intro k v rest d cs doc hk
    simp [process_dict, entryLines, hk]
  · intro k t rest d cs doc hk
    simp [process_dict, entryLines, hk, process_value]

/-- C5 witness: the three amended clauses instantiated at concrete tables —
a one-entry scalar table rendered at depth 1, a table whose first key is
`b-c`, and a table whose first value is a date-time stand-in. -/
theorem c5_witness :
    process_dict [("host", .str "localhost")] 1 [] (.table [])
        = .ok ("$[\n"
            ++ String.intercalate ",\n" ([("host", Value.str "localhost")].map
                (fun p => tabs 1 ++ p.1 ++ " = "
                  ++ okStr (process_value p.2 2 [] (.table []))))
            ++ "\n" ++ tabs 0 ++ "]") ∧
    process_dict [("b-c", .int 1)] 1 [] (.table [])
        = .error (.unsupportedIdentifier "b-c") ∧
    process_dict [("a", .other "datetime")] 1 [] (.table [])
        = .error (.unsupportedType "datetime") := by
  refine ⟨?_, ?_, ?_⟩
  · refine c5_amended.1 [("host", .str "localhost")] 1 [] (.table []) ?_ ?_
    · intro p hp
      simp at hp
      subst hp
      decide
    · intro p hp
      simp at hp
      subst hp
      simp [process_value, replace_constants_in_string, findallAny, scanAll,
        matchAt, spanName, isNameStart, isNameChar, substLoop, isOkE]
  · exact c5_amended.2.1 "b-c" (.int 1) [] 1 [] (.table []) (by decide)
  · exact c5_amended.2.2 "a" "datetime" [] 1 [] (.table []) (by decide)

/-- Whether a top-level value is an `items.Table` (a section) in the host
program.  Inline tables and scalars are not. -/
def isSectionTable : Value → Bool
  | .table _ => true
  | _ => false

/-- C9 counterexample: a top-level non-table key (`x = 5`) does not fail
with `UnsupportedSectionName` as the claim requires; the section emitter
matches no branch for it and silently skips it, emitting nothing. -/
theorem c9_counterexample :
    process_object [("x", .int 5)] 1 [] (.table []) = .ok "" := by
  simp [process_object]

/-- C9 (amended): the section emitter fails with `UnsupportedSectionName`,
naming the offending key, exactly for a leading top-level entry whose value
is a table and whose name fails the identifier grammar; a top-level entry
whose value is not a table (scalar, array, or inline table) is skipped
silently, contributing nothing. -/
theorem c9_amended :
    (∀ (k : String) (v : Value) (rest : List (String × Value)) (d : Nat)
        (cs : List String) (doc : Value),
      isSectionTable v = false →
      process_object ((k, v) :: rest) d cs doc = process_object rest d cs doc) ∧
    (∀ (k : String) (es : List (String × Value)) (rest : List (String × Value))
        (d : Nat) (cs : List String) (doc : Value),
      name_pattern_match k = false →
      process_object ((k, .table es) :: rest) d cs doc
        = .error (.unsupportedSectionName k)) := by
  constructor
  · intro k v rest d cs doc hv
    cases v with
    | table es => simp [isSectionTable] at hv
    | bool b => rw [process_object]; intro es h2; exact Value.noConfusion h2
    | int n => rw [process_object]; intro es h2; exact Value.noConfusion h2
    | float t => rw [process_object]; intro es h2; exact Value.noConfusion h2
    | str s2 => rw [process_object]; intro es h2; exact Value.noConfusion h2
    | arr xs => rw [process_object]; intro es h2; exact Value.noConfusion h2
    | inlineTable es2 => rw [process_object]; intro es h2; exact Value.noConfusion h2
    | other t => rw [process_object]; intro es h2; exact Value.noConfusion h2
  · intro k es rest d cs doc hk
    simp [process_object, hk]

/-- C9 witness: a scalar top-level entry is skipped, and a table-valued
section named `bad-name` fails naming that key. -/
theorem c9_witness :
    process_object [("x", .int 5), ("ok", .table [])] 1 [] (.table [])
        = process_object [("ok", .table [])] 1 [] (.table []) ∧
    process_object [("bad-name", .table [])] 1 [] (.table [])
        = .error (.unsupportedSectionName "bad-name") := by
  constructor
  · exact c9_amended.1 "x" (.int 5) [("ok", .table [])] 1 [] (.table []) (by decide)
  · exact c9_amended.2 "bad-name" [] [] 1 [] (.table []) (by decide)

/-- The document of the repository's own first test:
`[server]` with `host`, `port` and
`constants = { MAX_CONNECTIONS = 100, TIMEOUT = 30 }`. -/
def serverDoc : Value :=
  .table [("server", .table
    [("host", .str "localhost"),
     ("port", .int 8080),
     ("constants", .inlineTable
        [("MAX_CONNECTIONS", .int 100), ("TIMEOUT", .int 30)])])]

/-- C8: on the repository's own test input, the declaration text emitted by
`process_constants` is a function of the enumeration order of the Python
set `consts`, which the source leaves to the interpreter (and which varies
across runs under string-hash randomization): the two enumeration orders of
the registered name set produce different outputs, so the emission order is
not determined by the input document. -/
theorem c8_order_dependent :
    collect_constants serverDoc [] = .ok ["MAX_CONNECTIONS", "TIMEOUT"] ∧
    process_constants ["MAX_CONNECTIONS", "TIMEOUT"]
        ["MAX_CONNECTIONS", "TIMEOUT"] serverDoc
      = .ok "def MAX_CONNECTIONS := 100;\ndef TIMEOUT := 30;" ∧
    process_constants ["TIMEOUT", "MAX_CONNECTIONS"]
        ["MAX_CONNECTIONS", "TIMEOUT"] serverDoc
      = .ok "def TIMEOUT := 30;\ndef MAX_CONNECTIONS := 100;" ∧
    ("def MAX_CONNECTIONS := 100;\ndef TIMEOUT := 30;" : String)
      ≠ "def TIMEOUT := 30;\ndef MAX_CONNECTIONS := 100;" := by
  have hg1 : get_constant_value serverDoc "MAX_CONNECTIONS" = .ok (some (.int 100)) := by
    simp [serverDoc, get_constant_value, getConstEntries, getConstItems, pyIn,
      pyGetItem, pyLower, List.lookup]
  have hg2 : get_constant_value serverDoc "TIMEOUT" = .ok (some (.int 30)) := by
    simp [serverDoc, get_constant_value, getConstEntries, getConstItems, pyIn,
      pyGetItem, pyLower, List.lookup]
  have hp1 : ∀ cs, process_value (.int 100) 1 cs serverDoc = .ok "100" := by
    intro cs
    simp [process_value]
    rfl
  have hp2 : ∀ cs, process_value (.int 30) 1 cs serverDoc = .ok "30" := by
    intro cs
    simp [process_value]
    rfl
  refine ⟨?_, ?_, ?_, by decide⟩
  · simp [serverDoc, collect_constants, collectEntries, collectItems,
      registerConsts, pyLower, name_pattern_match, identCore, isNameStart,
      isNameChar]
  · have hd : declLines ["MAX_CONNECTIONS", "TIMEOUT"]
        ["MAX_CONNECTIONS", "TIMEOUT"] serverDoc
        = .ok ["def MAX_CONNECTIONS := 100;", "def TIMEOUT := 30;"] := by
      simp [declLines, hg1, hg2, hp1, hp2]
    simp only [process_constants, hd]
    rfl
  · have hd : declLines ["TIMEOUT", "MAX_CONNECTIONS"]
        ["MAX_CONNECTIONS", "TIMEOUT"] serverDoc
        = .ok ["def TIMEOUT := 30;", "def MAX_CONNECTIONS := 100;"] := by
      simp [declLines, hg1, hg2, hp1, hp2]
    simp only [process_constants, hd]
    rfl

/-- Names declared by the entries of one table, in document order. -/
def declListEntries (es : List (String × Value)) : List String :=
  (declPairsEntries es).map Prod.fst

/-- Names declared by the items of one array, in document order. -/
def declListItems (xs : List Value) : List String :=
  (declPairsItems xs).map Prod.fst

/-- The outcome discovery has on a declaration sequence: the first name
whose second occurrence is reached (relative to the accumulated set `seen`)
yields `DuplicateConstant`; otherwise all names are appended. -/
def dupResult (seen : List String) (names : List String) : Except TErr (List String) :=
  match firstDupFrom seen names with
  | some n => .error (.duplicateConstant n)
  | none => .ok (seen ++ names)

theorem contains_true_of_mem {l : List String} {a : String} (h : a ∈ l) :
    l.contains a = true :=
  List.elem_iff.mpr h

theorem contains_false_of_not_mem {l : List String} {a : String} (h : a ∉ l) :
    l.contains a = false := by
  cases hc : l.contains a
  · rfl
  · exact absurd (List.elem_iff.mp hc) h

theorem firstDupFrom_cons_mem {seen : List String} {n : String}
    (h : n ∈ seen) (l : List String) :
    firstDupFrom seen (n :: l) = some n := by
  simp [firstDupFrom, h]

theorem firstDupFrom_cons_not_mem {seen : List String} {n : String}
    (h : n ∉ seen) (l : List String) :
    firstDupFrom seen (n :: l) = firstDupFrom (seen ++ [n]) l := by
  simp [firstDupFrom, h]

theorem dupResult_cons_mem {seen : List String} {n : String}
    (h : n ∈ seen) (names : List String) :
    dupResult seen (n :: names) = .error (.duplicateConstant n) := by
  simp only [dupResult]
  rw [firstDupFrom_cons_mem h]

theorem dupResult_cons_not_mem {seen : List String} {n : String}
    (h : n ∉ seen) (names : List String) :
    dupResult seen (n :: names) = dupResult (seen ++ [n]) names := by
  simp only [dupResult]
  rw [firstDupFrom_cons_not_mem h]
  cases h2 : firstDupFrom (seen ++ [n]) names with
  | some m => rfl
  | none => simp

theorem firstDupFrom_append (l1 : List String) :
    ∀ (seen : List String) (l2 : List String),
      firstDupFrom seen (l1 ++ l2)
        = (match firstDupFrom seen l1 with
            | some n => some n
            | none => firstDupFrom (seen ++ l1) l2) := by
  induction l1 with
  | nil => intro seen l2; simp [firstDupFrom]
  | cons n l1 ih =>
    intro seen l2
    by_cases hn : n ∈ seen
    · rw [List.cons_append, firstDupFrom_cons_mem hn, firstDupFrom_cons_mem hn]
    · rw [List.cons_append, firstDupFrom_cons_not_mem hn,
        firstDupFrom_cons_not_mem hn, ih]
      have h3 : seen ++ [n] ++ l1 = seen ++ n :: l1 := by simp
      rw [h3]

theorem dupResult_append (seen l1 l2 : List String) :
    dupResult seen (l1 ++ l2)
      = (match dupResult seen l1 with
          | .error e => .error e
          | .ok acc2 => dupResult acc2 l2) := by
  unfold dupResult
  rw [firstDupFrom_append]
  cases h : firstDupFrom seen l1 with
  | some n => simp
  | none => simp [List.append_assoc]

theorem registerConsts_spec :
    ∀ (ces : List (String × Value)) (seen : List String),
      (∀ m ∈ ces.map Prod.fst, name_pattern_match m = true) →
      registerConsts ces seen = dupResult seen (ces.map Prod.fst) := by
  intro ces
  induction ces with
  | nil => intro seen _; simp [registerConsts, dupResult, firstDupFrom]
  | cons p rest ih =>
    intro seen hn
    cases p with
    | mk n v =>
      have hvn : name_pattern_match n = true := hn n (by simp)
      by_cases hc : n ∈ seen
      · rw [show registerConsts ((n, v) :: rest) seen
            = .error (.duplicateConstant n) from by
          simp [registerConsts, hvn, hc]]
        rw [List.map_cons, dupResult_cons_mem hc]
      · rw [show registerConsts ((n, v) :: rest) seen
            = registerConsts rest (seen ++ [n]) from by
          simp [registerConsts, hvn, hc]]
        rw [ih (seen ++ [n]) (fun m hm => hn m (by simp [hm]))]
        rw [List.map_cons, dupResult_cons_not_mem hc]

theorem registerConsts_ok :
    ∀ (ces : List (String × Value)) (seen out : List String),
      registerConsts ces seen = .ok out →
      out = seen ++ ces.map Prod.fst ∧
        (∀ m ∈ ces.map Prod.fst, name_pattern_match m = true) := by
  intro ces
  induction ces with
  | nil =>
    intro seen out h
    simp [registerConsts] at h
    simp [← h]
  | cons p rest ih =>
    intro seen out h
    cases p with
    | mk n v =>
      by_cases hvn : name_pattern_match n = true
      · by_cases hc : n ∈ seen
        · rw [show registerConsts ((n, v) :: rest) seen
              = .error (.duplicateConstant n) from by
            simp [registerConsts, hvn, hc]] at h
          cases h
        · rw [show registerConsts ((n, v) :: rest) seen
              = registerConsts rest (seen ++ [n]) from by
            simp [registerConsts, hvn, hc]] at h
          rcases ih _ _ h with ⟨h1, h2⟩
          constructor
          · rw [h1]; simp
          · intro m hm
            simp at hm
            rcases hm with hm | hm
            · rw [hm]; exact hvn
            · exact h2 m (by simp [hm])
      · simp only [Bool.not_eq_true] at hvn
        rw [show registerConsts ((n, v) :: rest) seen
            = .error (.invalidConstantName n) from by
          simp [registerConsts, hvn]] at h
        cases h

mutual

theorem collectA : ∀ (v : Value) (acc : List String),
    constTablesOk v = true →
    (∀ m ∈ declList v, name_pattern_match m = true) →
    collect_constants v acc = dupResult acc (declList v)
  | .bool b, acc, _, _ => by
    simp [collect_constants, declList, declPairs, dupResult, firstDupFrom]
  | .int n, acc, _, _ => by
    simp [collect_constants, declList, declPairs, dupResult, firstDupFrom]
  | .float t, acc, _, _ => by
    simp [collect_constants, declList, declPairs, dupResult, firstDupFrom]
  | .str s2, acc, _, _ => by
    simp [collect_constants, declList, declPairs, dupResult, firstDupFrom]
  | .other t, acc, _, _ => by
    simp [collect_constants, declList, declPairs, dupResult, firstDupFrom]
  | .table es, acc, ht, hn => by
    have ht2 : constTablesOkEntries es = true := by
      rw [← ht]
      simp [constTablesOk]
    have hn2 : ∀ m ∈ declListEntries es, name_pattern_match m = true := by
      intro m hm
      refine hn m ?_
      simp only [declList, declPairs]
      simpa [declListEntries] using hm
    rw [show collect_constants (.table es) acc = collectEntries es acc from by
      simp [collect_constants]]
    rw [collectAEntries es acc ht2 hn2]
    congr 1
  | .inlineTable es, acc, ht, hn => by
    have ht2 : constTablesOkEntries es = true := by
      rw [← ht]
      simp [constTablesOk]
    have hn2 : ∀ m ∈ declListEntries es, name_pattern_match m = true := by
      intro m hm
      refine hn m ?_
      simp only [declList, declPairs]
      simpa [declListEntries] using hm
    rw [show collect_constants (.inlineTable es) acc = collectEntries es acc from by
      simp [collect_constants]]
    rw [collectAEntries es acc ht2 hn2]
    congr 1
  | .arr xs, acc, ht, hn => by
    have ht2 : constTablesOkItems xs = true := by
      rw [← ht]
      simp [constTablesOk]
    have hn2 : ∀ m ∈ declListItems xs, name_pattern_match m = true := by
      intro m hm
      refine hn m ?_
      simp only [declList, declPairs]
      simpa [declListItems] using hm
    rw [show collect_constants (.arr xs) acc = collectItems xs acc from by
      simp [collect_constants]]
    rw [collectAItems xs acc ht2 hn2]
    congr 1

theorem collectAEntries : ∀ (es : List (String × Value)) (acc : List String),
    constTablesOkEntries es = true →
    (∀ m ∈ declListEntries es, name_pattern_match m = true) →
    collectEntries es acc = dupResult acc (declListEntries es)
  | [], acc, _, _ => by
    simp [collectEntries, declListEntries, declPairsEntries, dupResult, firstDupFrom]
  | (k, v) :: rest, acc, ht, hn => by
    by_cases hk : pyLower k = "constants"
    · have hparts : isDict v = true ∧ constTablesOkEntries rest = true := by
        rw [show constTablesOkEntries ((k, v) :: rest)
            = (isDict v && constTablesOkEntries rest) from by
          simp [constTablesOkEntries, hk]] at ht
        simpa using ht
      have hnames : declListEntries ((k, v) :: rest)
          = (dictEntries v).map Prod.fst ++ declListEntries rest := by
        simp [declListEntries, declPairsEntries, hk]
      rw [hnames] at hn
      cases v with
      | table ces =>
        rw [show collectEntries ((k, .table ces) :: rest) acc
            = (match registerConsts ces acc with
                | .error e => .error e
                | .ok a2 => collectEntries rest a2) from by
          simp [collectEntries, hk]]
        rw [registerConsts_spec ces acc
          (fun m hm => hn m (List.mem_append_left _ (by simpa [dictEntries] using hm)))]
        rw [hnames]
        rw [show (dictEntries (Value.table ces)).map Prod.fst = ces.map Prod.fst from by
          simp [dictEntries]]
        rw [dupResult_append]
        cases hdr : dupResult acc (ces.map Prod.fst) with
        | error e => rfl
        | ok a2 =>
          exact collectAEntries rest a2 hparts.2
            (fun m hm => hn m (List.mem_append_right _ hm))
      | inlineTable ces =>
        rw [show collectEntries ((k, .inlineTable ces) :: rest) acc
            = (match registerConsts ces acc with
                | .error e => .error e
                | .ok a2 => collectEntries rest a2) from by
          simp [collectEntries, hk]]
        rw [registerConsts_spec ces acc
          (fun m hm => hn m (List.mem_append_left _ (by simpa [dictEntries] using hm)))]
        rw [hnames]
        rw [show (dictEntries (Value.inlineTable ces)).map Prod.fst = ces.map Prod.fst from by
          simp [dictEntries]]
        rw [dupResult_append]
        cases hdr : dupResult acc (ces.map Prod.fst) with
        | error e => rfl
        | ok a2 =>
          exact collectAEntries rest a2 hparts.2
            (fun m hm => hn m (List.mem_append_right _ hm))
      | bool b => simp [isDict] at hparts
      | int n => simp [isDict] at hparts
      | float t => simp [isDict] at hparts
      | str s2 => simp [isDict] at hparts
      | arr xs => simp [isDict] at hparts
      | other t => simp [isDict] at hparts
    · have hparts : constTablesOk v = true ∧ constTablesOkEntries rest = true := by
        rw [show constTablesOkEntries ((k, v) :: rest)
            = (constTablesOk v && constTablesOkEntries rest) from by
          simp [constTablesOkEntries, hk]] at ht
        simpa using ht
      have hnames : declListEntries ((k, v) :: rest)
          = declList v ++ declListEntries rest := by
        simp [declListEntries, declPairsEntries, hk, declList]
      rw [hnames] at hn
      rw [show collectEntries ((k, v) :: rest) acc
          = (match collect_constants v acc with
              | .error e => .error e
              | .ok a2 => collectEntries rest a2) from by
        simp [collectEntries, hk]]
      rw [collectA v acc hparts.1 (fun m hm => hn m (List.mem_append_left _ hm))]
      rw [hnames, dupResult_append]
      cases hdr : dupResult acc (declList v) with
      | error e => rfl
      | ok a2 =>
        exact collectAEntries rest a2 hparts.2
          (fun m hm => hn m (List.mem_append_right _ hm))

theorem collectAItems : ∀ (xs : List Value) (acc : List String),
    constTablesOkItems xs = true →
    (∀ m ∈ declListItems xs, name_pattern_match m = true) →
    collectItems xs acc = dupResult acc (declListItems xs)
  | [], acc, _, _ => by
    simp [collectItems, declListItems, declPairsItems, dupResult, firstDupFrom]
  | v :: rest, acc, ht, hn => by
    have hparts : constTablesOk v = true ∧ constTablesOkItems rest = true := by
      rw [show constTablesOkItems (v :: rest)
          = (constTablesOk v && constTablesOkItems rest) from by
        simp [constTablesOkItems]] at ht
      simpa using ht
    have hnames : declListItems (v :: rest) = declList v ++ declListItems rest := by
      simp [declListItems, declPairsItems, declList]
    rw [hnames] at hn
    rw [show collectItems (v :: rest) acc
        = (match collect_constants v acc with
            | .error e => .error e
            | .ok a2 => collectItems rest a2) from by
      simp [collectItems]]
    rw [collectA v acc hparts.1 (fun m hm => hn m (List.mem_append_left _ hm))]
    rw [hnames, dupResult_append]
    cases hdr : dupResult acc (declList v) with
    | error e => rfl
    | ok a2 =>
      exact collectAItems rest a2 hparts.2
        (fun m hm => hn m (List.mem_append_right _ hm))

end

/-- C3: duplicate constants are rejected against one global accumulated name
set: whenever the declaration sequence of the whole document (any nesting
depths, in either order) repeats a name, and no `InvalidConstantsValue` or
`InvalidIdentifier` failure preempts the scan, discovery fails with
`DuplicateConstant` naming the first name whose second occurrence is reached
in document order. -/
theorem c3_duplicate_global (doc : Value) (n : String)
    (ht : constTablesOk doc = true)
    (hn : ∀ m ∈ declList doc, name_pattern_match m = true)
    (hdup : firstDupFrom [] (declList doc) = some n) :
    collect_constants doc [] = .error (.duplicateConstant n) := by
  rw [collectA doc [] ht hn]
  simp [dupResult, hdup]

mutual

theorem collectB : ∀ (v : Value) (acc out : List String),
    collect_constants v acc = .ok out →
    constTablesOk v = true ∧ out = acc ++ declList v
  | .bool b, acc, out, h => by
    simp [collect_constants] at h
    simp [constTablesOk, declList, declPairs, ← h]
  | .int n, acc, out, h => by
    simp [collect_constants] at h
    simp [constTablesOk, declList, declPairs, ← h]
  | .float t, acc, out, h => by
    simp [collect_constants] at h
    simp [constTablesOk, declList, declPairs, ← h]
  | .str s2, acc, out, h => by
    simp [collect_constants] at h
    simp [constTablesOk, declList, declPairs, ← h]
  | .other t, acc, out, h => by
    simp [collect_constants] at h
    simp [constTablesOk, declList, declPairs, ← h]
  | .table es, acc, out, h => by
    rw [show collect_constants (.table es) acc = collectEntries es acc from by
      simp [collect_constants]] at h
    exact collectBEntries es acc out h
  | .inlineTable es, acc, out, h => by
    rw [show collect_constants (.inlineTable es) acc = collectEntries es acc from by
      simp [collect_constants]] at h
    exact collectBEntries es acc out h
  | .arr xs, acc, out, h => by
    rw [show collect_constants (.arr xs) acc = collectItems xs acc from by
      simp [collect_constants]] at h
    exact collectBItems xs acc out h

theorem collectBEntries : ∀ (es : List (String × Value)) (acc out : List String),
    collectEntries es acc = .ok out →
    constTablesOkEntries es = true ∧ out = acc ++ declListEntries es
  | [], acc, out, h => by
    simp [collectEntries] at h
    simp [constTablesOkEntries, declListEntries, declPairsEntries, ← h]
  | (k, v) :: rest, acc, out, h => by
    by_cases hk : pyLower k = "constants"
    · cases v with
      | table ces =>
        rw [show collectEntries ((k, .table ces) :: rest) acc
            = (match registerConsts ces acc with
                | .error e => .error e
                | .ok a2 => collectEntries rest a2) from by
          simp [collectEntries, hk]] at h
        cases hr : registerConsts ces acc with
        | error e => rw [hr] at h; exact absurd h (by simp)
        | ok a2 =>
          rw [hr] at h
          rcases collectBEntries rest a2 out h with ⟨h1, h2⟩
          rcases registerConsts_ok ces acc a2 hr with ⟨h3, _⟩
          constructor
          · simp [constTablesOkEntries, hk, isDict, h1]
          · rw [h2, h3]
            simp [declListEntries, declPairsEntries, hk, dictEntries,
              List.append_assoc]
      | inlineTable ces =>
        rw [show collectEntries ((k, .inlineTable ces) :: rest) acc
            = (match registerConsts ces acc with
                | .error e => .error e
                | .ok a2 => collectEntries rest a2) from by
          simp [collectEntries, hk]] at h
        cases hr : registerConsts ces acc with
        | error e => rw [hr] at h; exact absurd h (by simp)
        | ok a2 =>
          rw [hr] at h
          rcases collectBEntries rest a2 out h with ⟨h1, h2⟩
          rcases registerConsts_ok ces acc a2 hr with ⟨h3, _⟩
          constructor
          · simp [constTablesOkEntries, hk, isDict, h1]
          · rw [h2, h3]
            simp [declListEntries, declPairsEntries, hk, dictEntries,
              List.append_assoc]
      | bool b =>
        rw [show collectEntries ((k, .bool b) :: rest) acc
            = .error .invalidConstantsValue from by simp [collectEntries, hk]] at h
        exact absurd h (by simp)
      | int n =>
        rw [show collectEntries ((k, .int n) :: rest) acc
            = .error .invalidConstantsValue from by simp [collectEntries, hk]] at h
        exact absurd h (by simp)
      | float t =>
        rw [show collectEntries ((k, .float t) :: rest) acc
            = .error .invalidConstantsValue from by simp [collectEntries, hk]] at h
        exact absurd h (by simp)
      | str s2 =>
        rw [show collectEntries ((k, .str s2) :: rest) acc
            = .error .invalidConstantsValue from by simp [collectEntries, hk]] at h
        exact absurd h (by simp)
      | arr xs =>
        rw [show collectEntries ((k, .arr xs) :: rest) acc
            = .error .invalidConstantsValue from by simp [collectEntries, hk]] at h
        exact absurd h (by simp)
      | other t =>
        rw [show collectEntries ((k, .other t) :: rest) acc
            = .error .invalidConstantsValue from by simp [collectEntries, hk]] at h
        exact absurd h (by simp)
    · rw [show collectEntries ((k, v) :: rest) acc
          = (match collect_constants v acc with
              | .error e => .error e
              | .ok a2 => collectEntries rest a2) from by
        simp [collectEntries, hk]] at h
      cases hc : collect_constants v acc with
      | error e => rw [hc] at h; exact absurd h (by simp)
      | ok a2 =>
        rw [hc] at h
        rcases collectB v acc a2 hc with ⟨h1, h3⟩
        rcases collectBEntries rest a2 out h with ⟨h2, h4⟩
        constructor
        · simp [constTablesOkEntries, hk, h1, h2]
        · rw [h4, h3]
          simp [declListEntries, declPairsEntries, hk, declList,
            List.append_assoc]

theorem collectBItems : ∀ (xs : List Value) (acc out : List String),
    collectItems xs acc = .ok out →
    constTablesOkItems xs = true ∧ out = acc ++ declListItems xs
  | [], acc, out, h => by
    simp [collectItems] at h
    simp [constTablesOkItems, declListItems, declPairsItems, ← h]
  | v :: rest, acc, out, h => by
    rw [show collectItems (v :: rest) acc
        = (match collect_constants v acc with
            | .error e => .error e
            | .ok a2 => collectItems rest a2) from by
      simp [collectItems]] at h
    cases hc : collect_constants v acc with
    | error e => rw [hc] at h; exact absurd h (by simp)
    | ok a2 =>
      rw [hc] at h
      rcases collectB v acc a2 hc with ⟨h1, h3⟩
      rcases collectBItems rest a2 out h with ⟨h2, h4⟩
      constructor
      · simp [constTablesOkItems, h1, h2]
      · rw [h4, h3]
        simp [declListItems, declPairsItems, declList, List.append_assoc]

end

theorem anyKey_iff (es : List (String × Value)) (n : String) :
    (es.any (fun e => e.1 = n) = true) ↔ n ∈ es.map Prod.fst := by
  simp [List.any_eq_true, List.mem_map]

theorem lookup_mem_isSome :
    ∀ (es : List (String × Value)) (n : String),
      n ∈ es.map Prod.fst → ∃ r, es.lookup n = some r
  | [], n, hm => by simp at hm
  | (k, v) :: rest, n, hm => by
    by_cases he : n = k
    · subst he
      exact ⟨v, by simp [List.lookup]⟩
    · have h2 : n ∈ rest.map Prod.fst := by
        simp at hm
        rcases hm with h | h
        · exact absurd h he
        · simpa using h
      rcases lookup_mem_isSome rest n h2 with ⟨r, hr⟩
      refine ⟨r, ?_⟩
      have hne : (n == k) = false := beq_eq_false_iff_ne.mpr he
      simp [List.lookup, hne, hr]

mutual

theorem resolveR : ∀ (v : Value) (n : String),
    constTablesOk v = true → n ∈ declList v →
    get_constant_value v n ≠ .ok none
  | .bool b, n, _, hm => by simp [declList, declPairs] at hm
  | .int n2, n, _, hm => by simp [declList, declPairs] at hm
  | .float t, n, _, hm => by simp [declList, declPairs] at hm
  | .str s2, n, _, hm => by simp [declList, declPairs] at hm
  | .other t, n, _, hm => by simp [declList, declPairs] at hm
  | .table es, n, ht, hm => by
    rw [show get_constant_value (.table es) n = getConstEntries es n from by
      simp [get_constant_value]]
    exact resolveREntries es n ht hm
  | .inlineTable es, n, ht, hm => by
    rw [show get_constant_value (.inlineTable es) n = getConstEntries es n from by
      simp [get_constant_value]]
    exact resolveREntries es n ht hm
  | .arr xs, n, ht, hm => by
    rw [show get_constant_value (.arr xs) n = getConstItems xs n from by
      simp [get_constant_value]]
    exact resolveRItems xs n ht hm

theorem resolveREntries : ∀ (es : List (String × Value)) (n : String),
    constTablesOkEntries es = true → n ∈ declListEntries es →
    getConstEntries es n ≠ .ok none
  | [], n, _, hm => by simp [declListEntries, declPairsEntries] at hm
  | (k, v) :: rest, n, ht, hm => by
    by_cases hk : pyLower k = "constants"
    · have hparts : isDict v = true ∧ constTablesOkEntries rest = true := by
        rw [show constTablesOkEntries ((k, v) :: rest)
            = (isDict v && constTablesOkEntries rest) from by
          simp [constTablesOkEntries, hk]] at ht
        simpa using ht
      have hnames : declListEntries ((k, v) :: rest)
          = (dictEntries v).map Prod.fst ++ declListEntries rest := by
        simp [declListEntries, declPairsEntries, hk]
      rw [hnames] at hm
      cases v with
      | table ces =>
        cases hin : ces.any (fun e => e.1 = n) with
        | true =>
          rcases lookup_mem_isSome ces n ((anyKey_iff ces n).mp hin) with ⟨r, hr⟩
          rw [show getConstEntries ((k, .table ces) :: rest) n = .ok (some r) from by
            simp [getConstEntries, hk, pyIn, hin, pyGetItem, hr]]
          simp
        | false =>
          rw [show getConstEntries ((k, .table ces) :: rest) n
              = (match get_constant_value (.table ces) n with
                  | .error e => .error e
                  | .ok (some f) => .ok (some f)
                  | .ok none => getConstEntries rest n) from by
            simp [getConstEntries, hk, pyIn, hin]]
          have hnot : n ∉ ces.map Prod.fst := by
            intro hcon
            rw [(anyKey_iff ces n).mpr hcon] at hin
            cases hin
          have hrest : n ∈ declListEntries rest := by
            rcases List.mem_append.mp hm with h | h
            · exact absurd (by simpa [dictEntries] using h) hnot
            · exact h
          cases hg : get_constant_value (.table ces) n with
          | error e => simp [hg]
          | ok r =>
            cases r with
            | some f => simp [hg]
            | none =>
              simp only [hg]
              exact resolveREntries rest n hparts.2 hrest
      | inlineTable ces =>
        cases hin : ces.any (fun e => e.1 = n) with
        | true =>
          rcases lookup_mem_isSome ces n ((anyKey_iff ces n).mp hin) with ⟨r, hr⟩
          rw [show getConstEntries ((k, .inlineTable ces) :: rest) n = .ok (some r) from by
            simp [getConstEntries, hk, pyIn, hin, pyGetItem, hr]]
          simp
        | false =>
          rw [show getConstEntries ((k, .inlineTable ces) :: rest) n
              = (match get_constant_value (.inlineTable ces) n with
                  | .error e => .error e
                  | .ok (some f) => .ok (some f)
                  | .ok none => getConstEntries rest n) from by
            simp [getConstEntries, hk, pyIn, hin]]
          have hnot : n ∉ ces.map Prod.fst := by
            intro hcon
            rw [(anyKey_iff ces n).mpr hcon] at hin
            cases hin
          have hrest : n ∈ declListEntries rest := by
            rcases List.mem_append.mp hm with h | h
            · exact absurd (by simpa [dictEntries] using h) hnot
            · exact h
          cases hg : get_constant_value (.inlineTable ces) n with
          | error e => simp [hg]
          | ok r =>
            cases r with
            | some f => simp [hg]
            | none =>
              simp only [hg]
              exact resolveREntries rest n hparts.2 hrest
      | bool b => simp [isDict] at hparts
      | int n2 => simp [isDict] at hparts
      | float t => simp [isDict] at hparts
      | str s2 => simp [isDict] at hparts
      | arr xs => simp [isDict] at hparts
      | other t => simp [isDict] at hparts
    · have hparts : constTablesOk v = true ∧ constTablesOkEntries rest = true := by
        rw [show constTablesOkEntries ((k, v) :: rest)
            = (constTablesOk v && constTablesOkEntries rest) from by
          simp [constTablesOkEntries, hk]] at ht
        simpa using ht
      have hnames : declListEntries ((k, v) :: rest)
          = declList v ++ declListEntries rest := by
        simp [declListEntries, declPairsEntries, hk, declList]
      rw [hnames] at hm
      rw [show getConstEntries ((k, v) :: rest) n
          = (match get_constant_value v n with
              | .error e => .error e
              | .ok (some f) => .ok (some f)
              | .ok none => getConstEntries rest n) from by
        simp [getConstEntries, hk]]
      cases hg : get_constant_value v n with
      | error e => simp [hg]
      | ok r =>
        cases r with
        | some f => simp [hg]
        | none =>
          simp only [hg]
          by_cases hv : n ∈ declList v
          · exact absurd hg (resolveR v n hparts.1 hv)
          · have hrest : n ∈ declListEntries rest := by
              rcases List.mem_append.mp hm with h | h
              · exact absurd h hv
              · exact h
            exact resolveREntries rest n hparts.2 hrest

theorem resolveRItems : ∀ (xs : List Value) (n : String),
    constTablesOkItems xs = true → n ∈ declListItems xs →
    getConstItems xs n ≠ .ok none
  | [], n, _, hm => by simp [declListItems, declPairsItems] at hm
  | v :: rest, n, ht, hm => by
    have hparts : constTablesOk v = true ∧ constTablesOkItems rest = true := by
      rw [show constTablesOkItems (v :: rest)
          = (constTablesOk v && constTablesOkItems rest) from by
        simp [constTablesOkItems]] at ht
      simpa using ht
    have hnames : declListItems (v :: rest) = declList v ++ declListItems rest := by
      simp [declListItems, declPairsItems, declList]
    rw [hnames] at hm
    rw [show getConstItems (v :: rest) n
        = (match get_constant_value v n with
            | .error e => .error e
            | .ok (some f) => .ok (some f)
            | .ok none => getConstItems rest n) from by
      simp [getConstItems]]
    cases hg : get_constant_value v n with
    | error e => simp [hg]
    | ok r =>
      cases r with
      | some f => simp [hg]
      | none =>
        simp only [hg]
        by_cases hv : n ∈ declList v
        · exact absurd hg (resolveR v n hparts.1 hv)
        · have hrest : n ∈ declListItems rest := by
            rcases List.mem_append.mp hm with h | h
            · exact absurd h hv
            · exact h
          exact resolveRItems rest n hparts.2 hrest

end

/-- A document declaring the same constant name in two "constants" tables
at different nesting depths: `[x] constants = {A = 1}` and a top-level
`constants = {A = 2}`. -/
def dupDoc : Value :=
  .table [("x", .table [("constants", .table [("A", .int 1)])]),
          ("constants", .table [("A", .int 2)])]

/-- C3 witness: at `dupDoc` (the same name declared in two tables at
different depths), discovery fails with `DuplicateConstant "A"`, the
second occurrence in document order. -/
theorem c3_witness :
    collect_constants dupDoc [] = .error (.duplicateConstant "A") := by
  refine c3_duplicate_global dupDoc "A" ?_ ?_ ?_
  · simp [dupDoc, constTablesOk, constTablesOkEntries, constTablesOkItems,
      pyLower, isDict]
  · intro m hm
    simp [dupDoc, declList, declPairs, declPairsEntries, declPairsItems,
      pyLower, dictEntries] at hm
    subst hm
    decide
  · simp [dupDoc, declList, declPairs, declPairsEntries, declPairsItems,
      pyLower, dictEntries, firstDupFrom]

/-- A document where a dict-valued constant is itself keyed `CONSTANTS`
(case-insensitively "constants") and holds an entry `A = 99`, while the
real declaration of `A` (value 1) sits in a later constants table. -/
def shadowDoc : Value :=
  .table [("a", .table [("constants", .table
             [("CONSTANTS", .table [("A", .int 99)])])]),
          ("b", .table [("constants", .table [("A", .int 1)])])]

/-- C6 counterexample: discovery succeeds on `shadowDoc`, registering
`CONSTANTS` and `A`, and `A`'s declared value is 1 — but resolution walks
into the dict-valued constant `CONSTANTS` (its key matches "constants"
case-insensitively) and returns 99, the first match in document order,
disagreeing with the table discovery registered `A` from. -/
theorem c6_counterexample :
    collect_constants shadowDoc [] = .ok ["CONSTANTS", "A"] ∧
    get_constant_value shadowDoc "A" = .ok (some (.int 99)) ∧
    (declPairs shadowDoc).lookup "A" = some (.int 1) ∧
    Value.int 99 ≠ Value.int 1 := by
  refine ⟨?_, ?_, ?_, ?_⟩
  · simp [shadowDoc, collect_constants, collectEntries, collectItems,
      registerConsts, pyLower, name_pattern_match, identCore, isNameStart,
      isNameChar]
  · simp [shadowDoc, get_constant_value, getConstEntries, getConstItems,
      pyIn, pyGetItem, pyLower, List.lookup]
  · simp [shadowDoc, declPairs, declPairsEntries, declPairsItems, pyLower,
      dictEntries, List.lookup]
  · intro h
    injection h with h2
    exact absurd h2 (by decide)

/-- C7 witness: the amended characterization applied at the concrete
identifier `A_1` (exact-grammar core, no trailing newline). -/
theorem c7_witness : name_pattern_match "A_1" = true :=
  (c7_amended "A_1").mpr ⟨"A_1", Or.inl rfl, by decide⟩

/-- C6 (amended): for every document on which discovery succeeds, resolution
of a registered name never returns the clean not-found outcome: it yields a
value (the first one in document order under any case-insensitive
"constants" key, which can differ from the declaring table's value) or
aborts with a host type error. -/
theorem c6_registered_resolves (doc : Value) (names : List String) (n : String)
    (hc : collect_constants doc [] = .ok names) (hn : n ∈ names) :
    get_constant_value doc n ≠ .ok none := by
  rcases collectB doc [] names hc with ⟨ht, hout⟩
  rw [hout] at hn
  simp at hn
  exact resolveR doc n ht hn

/-- C6 witness: on a one-table document the registered name `A` resolves
(it does not reach the not-found outcome). -/
theorem c6_witness :
    get_constant_value (.table [("constants", .table [("A", .int 1)])]) "A"
      ≠ .ok none := by
  refine c6_registered_resolves
    (.table [("constants", .table [("A", .int 1)])]) ["A"] "A" ?_ ?_
  · simp [collect_constants, collectEntries, registerConsts, pyLower,
      name_pattern_match, identCore, isNameStart, isNameChar]
  · simp

end Translator
